import Mathlib

set_option maxHeartbeats 1000000

/-!
Shallow embedding of `src/housing_assessment_prediction.py`.

The script loads train/test CSVs, builds a preprocessing pipeline
(SimpleImputer + OneHotEncoder per feature group), cross-validates four
models, refits RidgeCV, and writes three CSV tables with a bare
`try/except` directory-creation fallback.  The definitions below are
translated from that source; library calls (numpy round/argsort/arange,
sklearn OneHotEncoder/RidgeCV/cross_validate, pandas to_csv, os.makedirs)
are embedded by their documented semantics.
-/

/-- Numpy-style rounding of a rational to the nearest integer, halves to
even (the rounding used by numpy and pandas `round`). -/
def roundHalfEven (q : ℚ) : ℤ :=
  if Int.fract q < 1/2 then ⌊q⌋
  else if 1/2 < Int.fract q then ⌊q⌋ + 1
  else if ⌊q⌋ % 2 = 0 then ⌊q⌋ else ⌊q⌋ + 1

/-- `x.round(k)` of numpy/pandas: round to `k` decimal places, halves to even. -/
def npRound (k : ℕ) (q : ℚ) : ℚ := (roundHalfEven (q * 10 ^ k) : ℚ) / 10 ^ k

/-- Specification of a `np.argsort(v)` result: a permutation of the index
range along which the values are nondecreasing.  The call in the script
uses the default `kind` (quicksort), which fixes no order among equal
values, so any permutation satisfying this predicate is a possible output. -/
def isArgsort (v : List ℚ) (p : List ℕ) : Prop :=
  List.Perm p (List.range v.length) ∧ (p.map fun i => v.getD i 0).Pairwise (· ≤ ·)

instance (v : List ℚ) (p : List ℕ) : Decidable (isArgsort v p) :=
  inferInstanceAs (Decidable (List.Perm p (List.range v.length) ∧
    (p.map fun i => v.getD i 0).Pairwise (· ≤ ·)))

/-- The index permutation keeps equal values in their original order. -/
def tieStable (v : List ℚ) (p : List ℕ) : Prop :=
  p.Pairwise fun i j => v.getD i 0 = v.getD j 0 → i < j

instance (v : List ℚ) (p : List ℕ) : Decidable (tieStable v p) :=
  inferInstanceAs (Decidable
    (p.Pairwise fun i j => v.getD i 0 = v.getD j 0 → i < j))

/-- Index comparison by value, ties by index: the order realised by a stable
argsort. -/
def idxLe (v : List ℚ) (i j : ℕ) : Prop :=
  v.getD i 0 < v.getD j 0 ∨ (v.getD i 0 = v.getD j 0 ∧ i ≤ j)

instance (v : List ℚ) : DecidableRel (idxLe v) := fun i j =>
  inferInstanceAs (Decidable
    (v.getD i 0 < v.getD j 0 ∨ (v.getD i 0 = v.getD j 0 ∧ i ≤ j)))

/-- A stable argsort of `v`: sort the index range by value, ties by index. -/
def argsortStable (v : List ℚ) : List ℕ :=
  List.insertionSort (idxLe v) (List.range v.length)

/-- `categorical_features` of the script. -/
def categorical_features : List String := ["BLDG_DESC"]

/-- `binary_features` of the script. -/
def binary_features : List String := ["GARAGE", "FIREPLACE", "BASEMENT", "BSMTDEVL"]

/-- `numerical_features` of the script. -/
def numerical_features : List String := ["AGE", "BLDG_FEET", "LATITUDE", "LONGITUDE"]

/-- The categories a fitted `OneHotEncoder` records for one column: the
distinct observed values in sorted order (sklearn sorts with `np.unique`). -/
def oheCategories {α : Type} [LinearOrder α] [DecidableEq α] (col : List α) : List α :=
  List.insertionSort (· ≤ ·) col.dedup

/-- `SimpleImputer(strategy="constant")` on a string column: missing cells
become the default fill value `"missing_value"`. -/
def imputeConstant (col : List (Option String)) : List String :=
  col.map fun x => x.getD "missing_value"

/-- `OneHotEncoder.get_feature_names([feat])`: one generated name per
recorded category. -/
def oheFeatureNamesFor (feat : String) (cats : List String) : List String :=
  cats.map fun c => feat ++ "_" ++ c

/-- `OneHotEncoder(drop="if_binary")` column names for one integer column:
with exactly two recorded categories the first is dropped, otherwise all
categories are kept. -/
def binaryFeatureNamesFor (feat : String) (col : List ℤ) : List String :=
  if (oheCategories col).length = 2 then
    ((oheCategories col).drop 1).map fun c => feat ++ "_" ++ toString c
  else
    (oheCategories col).map fun c => feat ++ "_" ++ toString c

/-- `features = ohe_columns + binary_columns + numerical_features` of the
script, from the fitted preprocessor (categorical pipeline = imputer then
one-hot; binary pipeline = one-hot with `drop="if_binary"`). -/
def expandedFeatures (catCol : List (Option String))
    (garage fireplace basement bsmtdevl : List ℤ) : List String :=
  oheFeatureNamesFor "BLDG_DESC" (oheCategories (imputeConstant catCol))
    ++ binaryFeatureNamesFor "GARAGE" garage
    ++ binaryFeatureNamesFor "FIREPLACE" fireplace
    ++ binaryFeatureNamesFor "BASEMENT" basement
    ++ binaryFeatureNamesFor "BSMTDEVL" bsmtdevl
    ++ numerical_features

/-- The coefficient table written to `out_file3`. -/
structure FeatureTable where
  feature : List String
  coefficient : List ℚ
deriving DecidableEq

/-- `weights = coef_.round(2)`, `inds = np.argsort(coef_)`, then the table
rows follow `inds`: features at the permuted indices, rounded weights at
the permuted indices. -/
def buildFeatureTable (features : List String) (coef : List ℚ) (p : List ℕ) :
    FeatureTable :=
  { feature := p.map fun i => features.getD i "",
    coefficient := p.map fun i => npRound 2 (coef.getD i 0) }

/-- `OneHotEncoder` transform of one categorical cell against the recorded
categories; `none` models a raised error.  With `handle_unknown="ignore"`
(first argument `true`, as the script sets it) an unseen value yields the
all-zero indicator row instead of an error. -/
def oheTransformValue (handleUnknownIgnore : Bool) (cats : List String)
    (v : String) : Option (List ℕ) :=
  if v ∈ cats then some (cats.map fun c => if c = v then 1 else 0)
  else if handleUnknownIgnore then some (cats.map fun _ => 0)
  else none

/-- The script's categorical encoder: `OneHotEncoder(handle_unknown="ignore")`. -/
def categoricalEncode (cats : List String) (v : String) : Option (List ℕ) :=
  oheTransformValue true cats v

/-- The per-fold arrays returned by `cross_validate(..., return_train_score=True)`. -/
structure CVResult where
  fit_time : List ℚ
  score_time : List ℚ
  test_score : List ℚ
  train_score : List ℚ

/-- The metric keys of a `cross_validate` result, in order. -/
def cvMetricNames : List String := ["fit_time", "score_time", "test_score", "train_score"]

/-- Arithmetic mean of a list, as `pandas.DataFrame.mean` per column. -/
def listMean (l : List ℚ) : ℚ := l.sum / l.length

/-- `pd.DataFrame(scores).mean().round(4).tolist()` of the script. -/
def modelColumn (r : CVResult) : List ℚ :=
  [npRound 4 (listMean r.fit_time), npRound 4 (listMean r.score_time),
   npRound 4 (listMean r.test_score), npRound 4 (listMean r.train_score)]

/-- The cross-validation scores table written to `out_file1`: row labels
(the metric names used as index) and the named model columns. -/
structure ScoresTable where
  index : List String
  columns : List (String × List ℚ)

/-- `pd.DataFrame(store_scores, index=dummy_scores.keys())`: the dict is
built in insertion order dummy, ridgecv, random forest, XGB. -/
def buildScoresTable (d r f x : CVResult) : ScoresTable :=
  ⟨cvMetricNames,
   [("dummy_score", modelColumn d), ("ridgecv_score", modelColumn r),
    ("random_forest", modelColumn f), ("XGB_Regression", modelColumn x)]⟩

/-- Configuration of one `cross_validate` call. -/
structure CVCall where
  folds : ℕ
  scoring : String
  returnTrainScore : Bool

/-- `cross_validate(dummy, ...)`: no `cv` argument, so the sklearn default
of 5 folds applies. -/
def dummyCVCall : CVCall := ⟨5, "r2", true⟩

/-- `cross_validate(ridgecv, ..., cv=10, ...)`. -/
def ridgecvCVCall : CVCall := ⟨10, "r2", true⟩

/-- `cross_validate(random_forest_regression, ..., cv=5, ...)`. -/
def randomForestCVCall : CVCall := ⟨5, "r2", true⟩

/-- `cross_validate(xgb_regression, ..., cv=5, ...)`. -/
def xgbCVCall : CVCall := ⟨5, "r2", true⟩

/-- `np.arange(a, b, 1)` on integers. -/
def npArange (a b : ℤ) : List ℤ := (List.range (b - a).toNat).map fun i => a + i

/-- `alphas = 10.0 ** np.arange(-5, 5, 1)` of the script. -/
def alphas : List ℚ := (npArange (-5) 5).map fun e => (10 : ℚ) ^ e

/-- First element of the list minimizing `err`, as `np.argmin` over the
candidate grid (modelled from the documented behavior of `RidgeCV`:
pick the alpha whose internal cross-validated error is smallest). -/
def argminBy (err : ℚ → ℚ) : List ℚ → Option ℚ
  | [] => none
  | a :: rest =>
    match argminBy err rest with
    | none => some a
    | some b => if err b < err a then some b else some a

/-- The alpha selected by `RidgeCV(alphas=alphas)` given the internal
cross-validated error of each candidate. -/
def ridgeChosenAlpha (err : ℚ → ℚ) : ℚ := (argminBy err alphas).getD 0

/-- A destination path: directory plus file name (`p.dir` is
`os.path.dirname`). -/
structure OutPath where
  dir : List String
  name : String
deriving DecidableEq

/-- The error raised by a failed file operation. -/
inductive WriteError where
  | fileNotFound
  | permissionDenied
  | fileExists
deriving DecidableEq

instance {ε α : Type} [DecidableEq ε] [DecidableEq α] :
    DecidableEq (Except ε α) := fun x y =>
  match x, y with
  | .ok a, .ok b =>
    if h : a = b then isTrue (by rw [h])
    else isFalse (by intro hc; cases hc; exact h rfl)
  | .ok _, .error _ => isFalse (by intro hc; cases hc)
  | .error _, .ok _ => isFalse (by intro hc; cases hc)
  | .error e, .error f =>
    if h : e = f then isTrue (by rw [h])
    else isFalse (by intro hc; cases hc; exact h rfl)

/-- File-system state: the set of existing directories, the written files,
and the paths whose write fails for a reason other than a missing
directory (permissions, disk full, ...). -/
structure FileSystem where
  dirs : List (List String)
  files : List (List String × String)
  blocked : List (List String × String)
deriving DecidableEq

/-- `DataFrame.to_csv(path)`: raises FileNotFoundError when the destination
directory is absent; blocked paths model any other write failure. -/
def toCsv (fs : FileSystem) (p : OutPath) : Except WriteError FileSystem :=
  if p.dir ∉ fs.dirs then .error .fileNotFound
  else if (p.dir, p.name) ∈ fs.blocked then .error .permissionDenied
  else .ok ⟨fs.dirs, (p.dir, p.name) :: fs.files, fs.blocked⟩

/-- `os.makedirs(d)`: FileExistsError when `d` already exists (`exist_ok`
defaults to `False`); otherwise creates `d` and every missing ancestor
(all prefixes of the path). -/
def makedirs (fs : FileSystem) (d : List String) : Except WriteError FileSystem :=
  if d ∈ fs.dirs then .error .fileExists
  else .ok ⟨fs.dirs ++ d.inits, fs.files, fs.blocked⟩

/-- One output write of the script:
`try: df.to_csv(path)  except: os.makedirs(dirname(path)); df.to_csv(path)`.
The bare `except` catches every exception and discards the original error. -/
def writeWithFallback (fs : FileSystem) (p : OutPath) : Except WriteError FileSystem :=
  match toCsv fs p with
  | .ok fs1 => .ok fs1
  | .error _ =>
    match makedirs fs p.dir with
    | .error e => .error e
    | .ok fs1 => toCsv fs1 p

/-- Number of `to_csv` attempts `writeWithFallback` performs. -/
def toCsvAttempts (fs : FileSystem) (p : OutPath) : ℕ :=
  match toCsv fs p with
  | .ok _ => 1
  | .error _ =>
    match makedirs fs p.dir with
    | .error _ => 1
    | .ok _ => 2

/-- The write phase of `main`: the three tables in order. -/
def writeOutputs (fs : FileSystem) (p1 p2 p3 : OutPath) :
    Except WriteError FileSystem := do
  let fs1 ← writeWithFallback fs p1
  let fs2 ← writeWithFallback fs1 p2
  writeWithFallback fs2 p3

theorem floor_le_roundHalfEven (q : ℚ) : ⌊q⌋ ≤ roundHalfEven q := by
  unfold roundHalfEven
  split_ifs <;> omega

theorem roundHalfEven_le_floor_add_one (q : ℚ) : roundHalfEven q ≤ ⌊q⌋ + 1 := by
  unfold roundHalfEven
  split_ifs <;> omega

theorem roundHalfEven_mono {q r : ℚ} (h : q ≤ r) :
    roundHalfEven q ≤ roundHalfEven r := by
  have hf : ⌊q⌋ ≤ ⌊r⌋ := Int.floor_mono h
  rcases eq_or_lt_of_le hf with heq | hlt
  · have hfr : Int.fract q ≤ Int.fract r := by
      unfold Int.fract
      rw [heq]
      linarith
    unfold roundHalfEven
    rw [heq]
    split_ifs <;> first | omega | linarith
  · have h1 := roundHalfEven_le_floor_add_one q
    have h2 := floor_le_roundHalfEven r
    omega

theorem npRound_mono (k : ℕ) {q r : ℚ} (h : q ≤ r) :
    npRound k q ≤ npRound k r := by
  have hp : (0 : ℚ) < 10 ^ k := by positivity
  have h1 : q * 10 ^ k ≤ r * 10 ^ k := mul_le_mul_of_nonneg_right h hp.le
  have h2 : ((roundHalfEven (q * 10 ^ k) : ℤ) : ℚ)
      ≤ ((roundHalfEven (r * 10 ^ k) : ℤ) : ℚ) := by
    exact_mod_cast roundHalfEven_mono h1
  unfold npRound
  rw [div_eq_mul_inv, div_eq_mul_inv]
  exact mul_le_mul_of_nonneg_right h2 (by positivity)

theorem npRound_eq_int_div (k : ℕ) (q : ℚ) :
    ∃ z : ℤ, npRound k q = (z : ℚ) / 10 ^ k :=
  ⟨roundHalfEven (q * 10 ^ k), rfl⟩

/-- Claim C1: in the coefficient table built from any valid `np.argsort`
result on the refit ridge coefficients, adjacent coefficient entries are
nondecreasing: the rows are sorted ascending by coefficient value. -/
theorem coefficient_table_sorted_ascending (features : List String)
    (coef : List ℚ) (p : List ℕ) (h : isArgsort coef p) :
    ((buildFeatureTable features coef p).coefficient).Chain' (· ≤ ·) := by
  have hpw : (p.map fun i => coef.getD i 0).Pairwise (· ≤ ·) := h.2
  have heq : (buildFeatureTable features coef p).coefficient
      = (p.map fun i => coef.getD i 0).map (npRound 2) := by
    simp only [buildFeatureTable, List.map_map]
    rfl
  rw [heq]
  apply List.Pairwise.chain'
  rw [List.pairwise_map]
  exact hpw.imp fun hab => npRound_mono 2 hab

/-- Witness for C1 at a concrete input. -/
theorem coefficient_table_sorted_ascending_witness :
    isArgsort [(2 : ℚ), 0, 1] [1, 2, 0] ∧
      ((buildFeatureTable ["a", "b", "c"] [(2 : ℚ), 0, 1] [1, 2, 0]).coefficient).Chain'
        (· ≤ ·) :=
  ⟨by decide, coefficient_table_sorted_ascending ["a", "b", "c"] [2, 0, 1] [1, 2, 0]
    (by decide)⟩

/-- Claim C2 counterexample: with two equal coefficients the index order
`[1, 0]` is a valid result of the script's `np.argsort` call (whose default
quicksort fixes no tie order), yet it reverses the original feature order:
the table lists feature "b" before feature "a". -/
theorem equal_coefficients_order_not_forced :
    isArgsort [(0 : ℚ), 0] [1, 0] ∧ ¬ tieStable [(0 : ℚ), 0] [1, 0] ∧
      (buildFeatureTable ["a", "b"] [(0 : ℚ), 0] [1, 0]).feature = ["b", "a"] := by
  refine ⟨by decide, by decide, ?_⟩
  rfl

theorem idxLe_total (v : List ℚ) : ∀ i j : ℕ, idxLe v i j ∨ idxLe v j i := by
  intro i j
  rcases lt_trichotomy (v.getD i 0) (v.getD j 0) with h | h | h
  · exact Or.inl (Or.inl h)
  · rcases Nat.le_total i j with hij | hij
    · exact Or.inl (Or.inr ⟨h, hij⟩)
    · exact Or.inr (Or.inr ⟨h.symm, hij⟩)
  · exact Or.inr (Or.inl h)

theorem idxLe_trans (v : List ℚ) :
    ∀ i j k : ℕ, idxLe v i j → idxLe v j k → idxLe v i k := by
  intro i j k hij hjk
  rcases hij with h1 | ⟨e1, l1⟩
  · rcases hjk with h2 | ⟨e2, l2⟩
    · exact Or.inl (h1.trans h2)
    · exact Or.inl (e2 ▸ h1)
  · rcases hjk with h2 | ⟨e2, l2⟩
    · exact Or.inl (by rw [e1]; exact h2)
    · exact Or.inr ⟨e1.trans e2, l1.trans l2⟩

/-- Claim C2 (amended): the relative order of equal-coefficient rows is not
fixed by the code (counterexample above); the original-feature-order
outcome is merely one valid argsort result, realised by a stable argsort. -/
theorem stable_order_is_one_valid_argsort (v : List ℚ) :
    isArgsort v (argsortStable v) ∧ tieStable v (argsortStable v) := by
  haveI ht : IsTotal ℕ (idxLe v) := ⟨idxLe_total v⟩
  haveI htr : IsTrans ℕ (idxLe v) := ⟨idxLe_trans v⟩
  have hperm : List.Perm (argsortStable v) (List.range v.length) :=
    List.perm_insertionSort _ _
  have hpair : (argsortStable v).Pairwise (idxLe v) :=
    List.sorted_insertionSort (idxLe v) (List.range v.length)
  have hnodup : (argsortStable v).Pairwise (· ≠ ·) :=
    hperm.nodup_iff.mpr (List.nodup_range _)
  refine ⟨⟨hperm, ?_⟩, ?_⟩
  · rw [List.pairwise_map]
    exact hpair.imp fun hab => by
      rcases hab with h | ⟨e, _⟩
      · exact le_of_lt h
      · exact le_of_eq e
  · exact (hpair.and hnodup).imp fun hab he => by
      rcases hab with ⟨h | ⟨_, hle⟩, hne⟩
      · exact absurd he (ne_of_lt h)
      · exact lt_of_le_of_ne hle hne

/-- Witness for the amended C2 at a concrete input. -/
theorem stable_order_is_one_valid_argsort_witness :
    isArgsort [(2 : ℚ), 0, 0] (argsortStable [(2 : ℚ), 0, 0]) ∧
      tieStable [(2 : ℚ), 0, 0] (argsortStable [(2 : ℚ), 0, 0]) :=
  stable_order_is_one_valid_argsort [2, 0, 0]

theorem roundHalfEven_of_fract_lt {q : ℚ} (h : Int.fract q < 1/2) :
    roundHalfEven q = ⌊q⌋ := by
  unfold roundHalfEven
  rw [if_pos h]

theorem roundHalfEven_of_half_lt_fract {q : ℚ} (h : 1/2 < Int.fract q) :
    roundHalfEven q = ⌊q⌋ + 1 := by
  unfold roundHalfEven
  rw [if_neg (by linarith), if_pos h]

theorem npRound_two_of_small_pos : npRound 2 (3/1000) = 0 := by
  have hf : ⌊(3 : ℚ)/1000 * 10 ^ 2⌋ = 0 := by
    rw [Int.floor_eq_iff]; norm_num
  have hfr : Int.fract ((3 : ℚ)/1000 * 10 ^ 2) < 1/2 := by
    unfold Int.fract
    rw [hf]
    norm_num
  unfold npRound
  rw [roundHalfEven_of_fract_lt hfr, hf]
  norm_num

theorem npRound_two_of_small_neg : npRound 2 (-3/1000) = 0 := by
  have hf : ⌊(-3 : ℚ)/1000 * 10 ^ 2⌋ = -1 := by
    rw [Int.floor_eq_iff]; norm_num
  have hfr : 1/2 < Int.fract ((-3 : ℚ)/1000 * 10 ^ 2) := by
    unfold Int.fract
    rw [hf]
    norm_num
  unfold npRound
  rw [roundHalfEven_of_half_lt_fract hfr, hf]
  norm_num

/-- Claim C10: every coefficient written to the table is a 2-decimal value
(the `round(2)` of the unrounded coefficient), while the row order follows
the unrounded coefficients; concretely, 0.003 and -0.003 print as the same
rounded value yet the unrounded values force the -0.003 row first. -/
theorem coefficients_rounded_order_by_unrounded (features : List String)
    (coef : List ℚ) (p : List ℕ) (h : isArgsort coef p) :
    (∀ c ∈ (buildFeatureTable features coef p).coefficient,
        ∃ z : ℤ, c = (z : ℚ) / 100) ∧
      (p.map fun i => coef.getD i 0).Pairwise (· ≤ ·) ∧
      npRound 2 (3/1000) = npRound 2 (-3/1000) ∧
      isArgsort [(3 : ℚ)/1000, -3/1000] [1, 0] ∧
      ¬ isArgsort [(3 : ℚ)/1000, -3/1000] [0, 1] := by
  refine ⟨?_, h.2, ?_, ?_, ?_⟩
  · intro c hc
    simp only [buildFeatureTable, List.mem_map] at hc
    obtain ⟨i, _, rfl⟩ := hc
    refine ⟨roundHalfEven (coef.getD i 0 * 10 ^ 2), ?_⟩
    unfold npRound
    norm_num
  · rw [npRound_two_of_small_pos, npRound_two_of_small_neg]
  · constructor
    · decide
    · simp only [List.map_cons, List.map_nil, List.pairwise_cons, List.getD]
      norm_num
  · rintro ⟨-, hpw⟩
    simp only [List.map_cons, List.map_nil, List.pairwise_cons, List.getD] at hpw
    have := hpw.1 _ (List.mem_singleton.mpr rfl)
    norm_num at this

/-- Witness for C10 at a concrete input. -/
theorem coefficients_rounded_order_by_unrounded_witness :
    isArgsort [(2 : ℚ), 0, 1] [1, 2, 0] ∧
      ((∀ c ∈ (buildFeatureTable ["a", "b", "c"] [(2 : ℚ), 0, 1] [1, 2, 0]).coefficient,
          ∃ z : ℤ, c = (z : ℚ) / 100) ∧
        (([1, 2, 0] : List ℕ).map fun i => ([(2 : ℚ), 0, 1]).getD i 0).Pairwise (· ≤ ·) ∧
        npRound 2 (3/1000) = npRound 2 (-3/1000) ∧
        isArgsort [(3 : ℚ)/1000, -3/1000] [1, 0] ∧
        ¬ isArgsort [(3 : ℚ)/1000, -3/1000] [0, 1]) :=
  ⟨by decide, coefficients_rounded_order_by_unrounded ["a", "b", "c"] [2, 0, 1] [1, 2, 0]
    (by decide)⟩

/-- Claim C3: when a table write fails only because the destination
directory is absent, the fallback creates the directory with every
ancestor (all path prefixes), performs exactly one retry, and the write
succeeds with the file present.  The same `try/except` block is applied
verbatim to each of the three output tables. -/
theorem write_retry_creates_directory (fs : FileSystem) (p : OutPath)
    (hdir : p.dir ∉ fs.dirs) (hblocked : (p.dir, p.name) ∉ fs.blocked) :
    writeWithFallback fs p
        = .ok ⟨fs.dirs ++ p.dir.inits, (p.dir, p.name) :: fs.files, fs.blocked⟩ ∧
      (p.dir, p.name) ∈ ((p.dir, p.name) :: fs.files) ∧
      (∀ a, a <+: p.dir → a ∈ fs.dirs ++ p.dir.inits) ∧
      toCsvAttempts fs p = 2 := by
  have hfail : toCsv fs p = .error .fileNotFound := by
    unfold toCsv
    rw [if_pos hdir]
  have hmk : makedirs fs p.dir
      = .ok ⟨fs.dirs ++ p.dir.inits, fs.files, fs.blocked⟩ := by
    unfold makedirs
    rw [if_neg hdir]
  have hmem : p.dir ∈ fs.dirs ++ p.dir.inits :=
    List.mem_append.mpr (Or.inr ((List.mem_inits _ _).mpr List.prefix_rfl))
  have hok : toCsv ⟨fs.dirs ++ p.dir.inits, fs.files, fs.blocked⟩ p
      = .ok ⟨fs.dirs ++ p.dir.inits, (p.dir, p.name) :: fs.files, fs.blocked⟩ := by
    unfold toCsv
    rw [if_neg (not_not_intro hmem), if_neg hblocked]
  refine ⟨?_, List.mem_cons_self _ _, ?_, ?_⟩
  · simp only [writeWithFallback, hfail, hmk]
    exact hok
  · intro a ha
    exact List.mem_append.mpr (Or.inr ((List.mem_inits _ _).mpr ha))
  · simp only [toCsvAttempts, hfail, hmk]

/-- Witness for C3 at a concrete input. -/
theorem write_retry_creates_directory_witness :
    (⟨["results"], "scores.csv"⟩ : OutPath).dir ∉ (⟨[], [], []⟩ : FileSystem).dirs ∧
      ((⟨["results"], "scores.csv"⟩ : OutPath).dir,
          (⟨["results"], "scores.csv"⟩ : OutPath).name)
        ∉ (⟨[], [], []⟩ : FileSystem).blocked ∧
      (writeWithFallback ⟨[], [], []⟩ ⟨["results"], "scores.csv"⟩
          = .ok ⟨[] ++ (["results"] : List String).inits,
              ((["results"], "scores.csv")) :: [], []⟩ ∧
        ((["results"] : List String), "scores.csv")
          ∈ (((["results"] : List String), "scores.csv")) :: ([] : List (List String × String)) ∧
        (∀ a, a <+: (["results"] : List String)
          → a ∈ ([] : List (List String)) ++ (["results"] : List String).inits) ∧
        toCsvAttempts ⟨[], [], []⟩ ⟨["results"], "scores.csv"⟩ = 2) :=
  ⟨by decide, by decide,
    write_retry_creates_directory ⟨[], [], []⟩ ⟨["results"], "scores.csv"⟩
      (by decide) (by decide)⟩

/-- Claim C4 counterexample: with the destination directory present and the
write failing for another reason (modelled as a blocked path, e.g.
permissions), the original error is `permissionDenied`, yet the program's
fallback raises `fileExists` from `os.makedirs` — the propagated error is
not the original one, contradicting the claim that such failures receive
no special handling. -/
theorem other_write_failure_not_original_error :
    toCsv ⟨[["out"]], [], [(["out"], "a.csv")]⟩ ⟨["out"], "a.csv"⟩
        = .error .permissionDenied ∧
      writeWithFallback ⟨[["out"]], [], [(["out"], "a.csv")]⟩ ⟨["out"], "a.csv"⟩
        = .error .fileExists ∧
      WriteError.fileExists ≠ WriteError.permissionDenied := by
  refine ⟨by decide, by decide, by decide⟩

/-- Claim C4 (amended): a write failure whose cause is not a missing
directory is still caught by the bare `except`: the original error is
discarded, `os.makedirs` runs on the existing directory and the error that
propagates is its `FileExistsError`, not the original write error. -/
theorem other_write_failure_becomes_makedirs_error (fs : FileSystem)
    (p : OutPath) (hdir : p.dir ∈ fs.dirs)
    (hblocked : (p.dir, p.name) ∈ fs.blocked) :
    toCsv fs p = .error .permissionDenied ∧
      writeWithFallback fs p = .error .fileExists := by
  have hfail : toCsv fs p = .error .permissionDenied := by
    unfold toCsv
    rw [if_neg (not_not_intro hdir), if_pos hblocked]
  have hmk : makedirs fs p.dir = .error .fileExists := by
    unfold makedirs
    rw [if_pos hdir]
  refine ⟨hfail, ?_⟩
  simp only [writeWithFallback, hfail, hmk]

/-- Witness for the amended C4 at a concrete input. -/
theorem other_write_failure_becomes_makedirs_error_witness :
    (["data"] : List String) ∈ (⟨[["data"]], [], [(["data"], "t.csv")]⟩ : FileSystem).dirs ∧
      ((["data"] : List String), "t.csv")
        ∈ (⟨[["data"]], [], [(["data"], "t.csv")]⟩ : FileSystem).blocked ∧
      (toCsv ⟨[["data"]], [], [(["data"], "t.csv")]⟩ ⟨["data"], "t.csv"⟩
          = .error .permissionDenied ∧
        writeWithFallback ⟨[["data"]], [], [(["data"], "t.csv")]⟩ ⟨["data"], "t.csv"⟩
          = .error .fileExists) :=
  ⟨by decide, by decide,
    other_write_failure_becomes_makedirs_error
      ⟨[["data"]], [], [(["data"], "t.csv")]⟩ ⟨["data"], "t.csv"⟩
      (by decide) (by decide)⟩

/-- Claim C5: the cross-validation scores table has exactly the four metric
rows fit_time, score_time, test_score, train_score (as its index), exactly
the four model columns dummy_score, ridgecv_score, random_forest,
XGB_Regression in order, and every table value is a 4-decimal-place
rational (the `round(4)` of the fold mean). -/
theorem cv_scores_table_shape (d r f x : CVResult) :
    (buildScoresTable d r f x).index
        = ["fit_time", "score_time", "test_score", "train_score"] ∧
      ((buildScoresTable d r f x).columns.map Prod.fst)
        = ["dummy_score", "ridgecv_score", "random_forest", "XGB_Regression"] ∧
      (∀ c ∈ (buildScoresTable d r f x).columns, c.2.length = cvMetricNames.length) ∧
      (∀ c ∈ (buildScoresTable d r f x).columns, ∀ q ∈ c.2,
        ∃ z : ℤ, q = (z : ℚ) / 10000) := by
  have hfour : ∀ s : ℚ, ∃ z : ℤ, npRound 4 s = (z : ℚ) / 10000 := by
    intro s
    obtain ⟨z, hz⟩ := npRound_eq_int_div 4 s
    exact ⟨z, by rw [hz]; norm_num⟩
  refine ⟨rfl, rfl, ?_, ?_⟩
  · intro c hc
    simp only [buildScoresTable, List.mem_cons, List.not_mem_nil, or_false] at hc
    rcases hc with rfl | rfl | rfl | rfl <;> rfl
  · intro c hc q hq
    simp only [buildScoresTable, List.mem_cons, List.not_mem_nil, or_false] at hc
    rcases hc with rfl | rfl | rfl | rfl <;>
      · simp only [modelColumn, List.mem_cons, List.not_mem_nil, or_false] at hq
        rcases hq with rfl | rfl | rfl | rfl <;> apply hfour

/-- Claim C9: the four `cross_validate` calls use 5, 10, 5 and 5 folds for
the dummy, ridge, random-forest and XGB models respectively, all score with
R² on both the held-out fold and the training portion
(`return_train_score=True`), and each model's fold metrics are averaged
(then rounded) to one scalar per metric. -/
theorem cross_validation_fold_configuration :
    dummyCVCall.folds = 5 ∧ ridgecvCVCall.folds = 10 ∧
      randomForestCVCall.folds = 5 ∧ xgbCVCall.folds = 5 ∧
      dummyCVCall.scoring = "r2" ∧ ridgecvCVCall.scoring = "r2" ∧
      randomForestCVCall.scoring = "r2" ∧ xgbCVCall.scoring = "r2" ∧
      dummyCVCall.returnTrainScore = true ∧ ridgecvCVCall.returnTrainScore = true ∧
      randomForestCVCall.returnTrainScore = true ∧ xgbCVCall.returnTrainScore = true ∧
      ∀ r : CVResult, modelColumn r
        = [npRound 4 (listMean r.fit_time), npRound 4 (listMean r.score_time),
           npRound 4 (listMean r.test_score), npRound 4 (listMean r.train_score)] :=
  ⟨rfl, rfl, rfl, rfl, rfl, rfl, rfl, rfl, rfl, rfl, rfl, rfl, fun _ => rfl⟩

theorem mem_oheCategories {α : Type} [LinearOrder α] [DecidableEq α] {x : α}
    {l : List α} : x ∈ oheCategories l ↔ x ∈ l := by
  unfold oheCategories
  rw [(List.perm_insertionSort _ _).mem_iff, List.mem_dedup]

theorem map_const_zero (l : List String) :
    (l.map fun _ => (0 : ℕ)) = List.replicate l.length 0 := by
  induction l with
  | nil => rfl
  | cons a t ih => simp [ih, List.replicate_succ]

/-- Claim C6: a categorical value never observed in the training column is
encoded by `OneHotEncoder(handle_unknown="ignore")` as the all-zero
indicator row, not as an error. -/
theorem unseen_category_all_zero (trainCol : List String) (v : String)
    (h : v ∉ trainCol) :
    categoricalEncode (oheCategories trainCol) v
      = some (List.replicate (oheCategories trainCol).length 0) := by
  have hmem : v ∉ oheCategories trainCol := fun hv => h (mem_oheCategories.mp hv)
  unfold categoricalEncode oheTransformValue
  rw [if_neg hmem, if_pos rfl, map_const_zero]

/-- Witness for C6 at a concrete input. -/
theorem unseen_category_all_zero_witness :
    "castle" ∉ ["apartment", "bungalow"] ∧
      categoricalEncode (oheCategories ["apartment", "bungalow"]) "castle"
        = some (List.replicate (oheCategories ["apartment", "bungalow"]).length 0) :=
  ⟨by decide, unseen_category_all_zero ["apartment", "bungalow"] "castle" (by decide)⟩

theorem length_oheCategories {α : Type} [LinearOrder α] [DecidableEq α]
    (col : List α) : (oheCategories col).length = col.dedup.length :=
  (List.perm_insertionSort _ _).length_eq

theorem length_binaryFeatureNamesFor (feat : String) (col : List ℤ)
    (h : (oheCategories col).length = 2) :
    (binaryFeatureNamesFor feat col).length = 1 := by
  unfold binaryFeatureNamesFor
  rw [if_pos h, List.length_map, List.length_drop, h]

theorem imputeConstant_of_no_missing (col : List (Option String))
    (h : ∀ x ∈ col, x ≠ none) : imputeConstant col = col.filterMap id := by
  induction col with
  | nil => rfl
  | cons a t ih =>
    cases a with
    | none => exact absurd rfl (h none (List.mem_cons_self _ _))
    | some s =>
      have ht := ih fun x hx => h x (List.mem_cons_of_mem _ hx)
      simp only [imputeConstant, List.map_cons, List.filterMap_cons] at *
      rw [ht]
      rfl

/-- Claim C7: with no missing categorical values and each of the four
binary columns taking exactly two observed values, the coefficient table
has (#distinct observed categories) + 4 (one surviving indicator per binary
feature after the `if_binary` drop) + 4 (one row per numerical feature)
rows.  The coefficient vector of the fitted ridge model has one entry per
expanded feature (`hcoef`, a property of sklearn's fitted pipeline). -/
theorem coefficient_table_row_count (catCol : List (Option String))
    (garage fireplace basement bsmtdevl : List ℤ) (coef : List ℚ) (p : List ℕ)
    (hnm : ∀ x ∈ catCol, x ≠ none)
    (h1 : (oheCategories garage).length = 2)
    (h2 : (oheCategories fireplace).length = 2)
    (h3 : (oheCategories basement).length = 2)
    (h4 : (oheCategories bsmtdevl).length = 2)
    (hcoef : coef.length
      = (expandedFeatures catCol garage fireplace basement bsmtdevl).length)
    (hp : isArgsort coef p) :
    (buildFeatureTable (expandedFeatures catCol garage fireplace basement bsmtdevl)
        coef p).feature.length
      = (catCol.filterMap id).dedup.length + 4 + 4 := by
  have hlenp : p.length = coef.length := by
    have := hp.1.length_eq
    simpa using this
  have hfeat : (buildFeatureTable
      (expandedFeatures catCol garage fireplace basement bsmtdevl) coef p).feature.length
      = p.length := by
    simp [buildFeatureTable]
  rw [hfeat, hlenp, hcoef]
  unfold expandedFeatures
  simp only [List.length_append, oheFeatureNamesFor, List.length_map,
    length_binaryFeatureNamesFor _ _ h1, length_binaryFeatureNamesFor _ _ h2,
    length_binaryFeatureNamesFor _ _ h3, length_binaryFeatureNamesFor _ _ h4,
    length_oheCategories, imputeConstant_of_no_missing catCol hnm,
    numerical_features]
  simp only [List.length_cons, List.length_nil]

theorem expandedFeatures_pair_length :
    (expandedFeatures [some "a", some "b"] [0, 1] [0, 1] [0, 1] [0, 1]).length = 10 := by
  have hb : (oheCategories [(0 : ℤ), 1]).length = 2 := by decide
  rw [expandedFeatures, List.length_append, List.length_append, List.length_append,
    List.length_append, List.length_append,
    length_binaryFeatureNamesFor "GARAGE" _ hb,
    length_binaryFeatureNamesFor "FIREPLACE" _ hb,
    length_binaryFeatureNamesFor "BASEMENT" _ hb,
    length_binaryFeatureNamesFor "BSMTDEVL" _ hb,
    oheFeatureNamesFor, List.length_map, length_oheCategories]
  decide

/-- Witness for C7 at a concrete input. -/
theorem coefficient_table_row_count_witness :
    (∀ x ∈ [some "a", some "b"], x ≠ none) ∧
      (oheCategories [(0 : ℤ), 1]).length = 2 ∧
      ([(0 : ℚ), 0, 0, 0, 0, 0, 0, 0, 0, 0]).length
        = (expandedFeatures [some "a", some "b"] [0, 1] [0, 1] [0, 1] [0, 1]).length ∧
      isArgsort [(0 : ℚ), 0, 0, 0, 0, 0, 0, 0, 0, 0] [0, 1, 2, 3, 4, 5, 6, 7, 8, 9] ∧
      (buildFeatureTable (expandedFeatures [some "a", some "b"] [0, 1] [0, 1] [0, 1] [0, 1])
          [(0 : ℚ), 0, 0, 0, 0, 0, 0, 0, 0, 0] [0, 1, 2, 3, 4, 5, 6, 7, 8, 9]).feature.length
        = (([some "a", some "b"] : List (Option String)).filterMap id).dedup.length + 4 + 4 := by
  have hcoef : ([(0 : ℚ), 0, 0, 0, 0, 0, 0, 0, 0, 0]).length
      = (expandedFeatures [some "a", some "b"] [0, 1] [0, 1] [0, 1] [0, 1]).length := by
    simp [expandedFeatures_pair_length]
  exact ⟨by decide, by decide, hcoef, by decide,
    coefficient_table_row_count [some "a", some "b"] [0, 1] [0, 1] [0, 1] [0, 1]
      [0, 0, 0, 0, 0, 0, 0, 0, 0, 0] [0, 1, 2, 3, 4, 5, 6, 7, 8, 9]
      (by decide) (by decide) (by decide) (by decide) (by decide) hcoef (by decide)⟩

theorem argminBy_eq_none {err : ℚ → ℚ} {l : List ℚ}
    (h : argminBy err l = none) : l = [] := by
  cases l with
  | nil => rfl
  | cons a rest =>
    rw [argminBy] at h
    cases hr : argminBy err rest with
    | none => simp only [hr] at h; exact Option.noConfusion h
    | some b =>
      simp only [hr] at h
      by_cases hlt : err b < err a
      · rw [if_pos hlt] at h; simp at h
      · rw [if_neg hlt] at h; simp at h

theorem argminBy_mem_min (err : ℚ → ℚ) :
    ∀ l : List ℚ, ∀ a : ℚ, argminBy err l = some a →
      a ∈ l ∧ ∀ b ∈ l, err a ≤ err b := by
  intro l
  induction l with
  | nil => intro a h; simp [argminBy] at h
  | cons c rest ih =>
    intro a h
    rw [argminBy] at h
    cases hr : argminBy err rest with
    | none =>
      simp only [hr] at h
      cases h
      have hrest : rest = [] := argminBy_eq_none hr
      subst hrest
      refine ⟨List.mem_cons_self _ _, ?_⟩
      intro b hb
      rcases List.mem_cons.mp hb with rfl | hb
      · exact le_refl _
      · exact absurd hb (List.not_mem_nil _)
    | some m =>
      simp only [hr] at h
      obtain ⟨hmem, hall⟩ := ih m hr
      by_cases hlt : err m < err c
      · rw [if_pos hlt] at h
        cases h
        refine ⟨List.mem_cons_of_mem _ hmem, ?_⟩
        intro b hb
        rcases List.mem_cons.mp hb with rfl | hb
        · exact le_of_lt hlt
        · exact hall b hb
      · rw [if_neg hlt] at h
        cases h
        refine ⟨List.mem_cons_self _ _, ?_⟩
        intro b hb
        rcases List.mem_cons.mp hb with rfl | hb
        · exact le_refl _
        · exact le_trans (not_lt.mp hlt) (hall b hb)

/-- Claim C8: the alpha grid of the ridge model is exactly the ten
log-spaced powers of ten 10^-5 … 10^4, one per full decade, and `RidgeCV`
selects a grid member whose internal cross-validated error is minimal. -/
theorem ridge_alpha_grid (err : ℚ → ℚ) :
    alphas = [1/100000, 1/10000, 1/1000, 1/100, 1/10, 1, 10, 100, 1000, 10000] ∧
      alphas.length = 10 ∧
      ridgeChosenAlpha err ∈ alphas ∧
      ∀ b ∈ alphas, err (ridgeChosenAlpha err) ≤ err b := by
  have harange : npArange (-5) 5 = [-5, -4, -3, -2, -1, 0, 1, 2, 3, 4] := by decide
  have hexp : alphas = [1/100000, 1/10000, 1/1000, 1/100, 1/10, 1, 10, 100, 1000, 10000] := by
    unfold alphas
    rw [harange]
    simp only [List.map_cons, List.map_nil, List.cons.injEq, and_true]
    norm_num
  obtain ⟨a, ha⟩ : ∃ a, argminBy err alphas = some a := by
    cases hopt : argminBy err alphas with
    | none =>
      have : alphas = [] := argminBy_eq_none hopt
      rw [hexp] at this
      simp at this
    | some a => exact ⟨a, rfl⟩
  have hch : ridgeChosenAlpha err = a := by
    unfold ridgeChosenAlpha
    rw [ha]
    rfl
  obtain ⟨hmem, hall⟩ := argminBy_mem_min err alphas a ha
  rw [hch]
  exact ⟨hexp, by rw [hexp]; rfl, hmem, hall⟩

/-- Witness for C8 at a concrete error function. -/
theorem ridge_alpha_grid_witness :
    alphas = [1/100000, 1/10000, 1/1000, 1/100, 1/10, 1, 10, 100, 1000, 10000] ∧
      alphas.length = 10 ∧
      ridgeChosenAlpha (fun q => q) ∈ alphas ∧
      ∀ b ∈ alphas, (fun q : ℚ => q) (ridgeChosenAlpha (fun q => q)) ≤ (fun q : ℚ => q) b :=
  ridge_alpha_grid fun q => q

